import Mathlib

/-!
Verification of the ML training pipeline in
`arbitrage-scanner/ml_training/train_models.py`.

Shallow embedding conventions:
* Python `float` values are modelled as `ℚ` (all arithmetic the claims
  touch is exact decimal arithmetic).
* Python `str` is modelled as `List Char` (`PyStr`); `str.lower()` is
  `List.map Char.toLower`, `str.split()` is `splitWS` (split on runs of
  whitespace, discarding empty tokens), `len` is `List.length`, and the
  substring test `a in b` is `hasSubstr`.
* Python `set` of words is modelled as a deduplicated list
  (`List.dedup`); `len(A & B)` is the length of the membership filter.
* A Python expression that can raise `ZeroDivisionError` is embedded as
  an `Option`-valued definition returning `none` exactly when the Python
  denominator is zero; the division itself is exact `ℚ` division.
* `np.random.normal` noise in `augment_training_data` is modelled as an
  explicit parameter `noise : ℕ → List (List ℚ)` giving the noise matrix
  drawn on each loop iteration (the source draws a fresh matrix of shape
  `X.shape` per iteration).
* The sigmoid threshold `sigmoid(clip(s, -500, 500)) >= 0.5` used by
  `evaluate_model` is equivalent to `0 ≤ s` (proved below as
  `sigmoid_clip_ge_half_iff`), so predictions are embedded as the
  decidable test `0 ≤ s`.
-/

/-- Python strings as lists of characters. -/
abbrev PyStr := List Char

/-- Python `str.split()`: split on runs of whitespace, no empty tokens.
`acc` is the current in-progress token, reversed. -/
def splitWSAux (acc : PyStr) : PyStr → List PyStr
  | [] => if acc.isEmpty then [] else [acc.reverse]
  | c :: rest =>
    if c.isWhitespace then
      if acc.isEmpty then splitWSAux [] rest
      else acc.reverse :: splitWSAux [] rest
    else splitWSAux (c :: acc) rest

/-- Python `str.split()` with no separator argument. -/
def splitWS (s : PyStr) : List PyStr := splitWSAux [] s

/-- Python substring test `needle in hay`. -/
def hasSubstr (needle : PyStr) : PyStr → Bool
  | [] => needle.isEmpty
  | c :: rest => needle.isPrefixOf (c :: rest) || hasSubstr needle rest

/-- One side of a market pair (the `kalshi` / `polymarket` dicts).
`volume_usd` and `final_price_yes` are `Option`s because the source
reads them with `.get(key, default)`. -/
structure MarketSide where
  title : PyStr
  description : PyStr
  volume_usd : Option ℚ
  final_price_yes : Option ℚ
  source : PyStr
deriving DecidableEq

/-- A historical market pair record, with its ground-truth label
`resolution_alignment.matched`. -/
structure MarketPair where
  kalshi : MarketSide
  polymarket : MarketSide
  matched : Bool
deriving DecidableEq

/-- The 11-component feature vector (dataclass `FeatureVector`). -/
structure FeatureVector where
  title_similarity : ℚ
  description_similarity : ℚ
  keyword_overlap : ℚ
  category_match : ℚ
  timing_match : ℚ
  sources_match : ℚ
  alignment_score : ℚ
  volume_ratio : ℚ
  price_correlation : ℚ
  length_ratio : ℚ
  avg_word_count : ℚ
deriving DecidableEq

/-- Method `FeatureVector.to_array`: the normalized 11-element array. -/
def FeatureVector.to_array : FeatureVector → List ℚ
  | ⟨ts, ds, kw, cm, tm, sm, asc, vr, pc, lr, awc⟩ =>
    [ts / 100, ds / 100, kw / 100, cm, tm, sm, asc / 100, vr, pc, lr, awc / 20]

/-- Lowercased concatenation `(side['title'] + ' ' + side['description']).lower()`. -/
def sideText (s : MarketSide) : PyStr :=
  (s.title ++ [' '] ++ s.description).map Char.toLower

/-- The word set of a side's text: `set(text.split())`. -/
def sideWords (s : MarketSide) : List PyStr := (splitWS (sideText s)).dedup

/-- Line 79: `len(k_words & p_words) / max(len(k_words), len(p_words)) * 100`.
`none` models the `ZeroDivisionError` raised when both word sets are empty. -/
def keywordOverlapOf (pair : MarketPair) : Option ℚ :=
  let k_words := sideWords pair.kalshi
  let p_words := sideWords pair.polymarket
  let m := max k_words.length p_words.length
  if m = 0 then none
  else some (((k_words.filter (fun w => decide (w ∈ p_words))).length : ℚ) / (m : ℚ) * 100)

/-- Lines 82-84: `min(k_len, p_len) / max(k_len, p_len)` over the text
lengths. `none` models the `ZeroDivisionError` when both lengths are 0
(provably unreachable: the joining space makes each length ≥ 1). -/
def lengthRatioOf (pair : MarketPair) : Option ℚ :=
  let k_len := (sideText pair.kalshi).length
  let p_len := (sideText pair.polymarket).length
  if max k_len p_len = 0 then none
  else some ((min k_len p_len : ℚ) / (max k_len p_len : ℚ))

/-- Lines 86-88: `min(k_vol, p_vol) / max(k_vol, p_vol)` with volumes
defaulting to 1 when absent. `none` models the `ZeroDivisionError` when
the maximum is 0 (e.g. both volumes present and equal to 0). -/
def volumeRatioOf (pair : MarketPair) : Option ℚ :=
  let k_vol := pair.kalshi.volume_usd.getD 1
  let p_vol := pair.polymarket.volume_usd.getD 1
  if max k_vol p_vol = 0 then none
  else some (min k_vol p_vol / max k_vol p_vol)

/-- Lines 90-92: `1 - abs(k_price - p_price)`, prices defaulting to 0.5. -/
def priceCorrelationOf (pair : MarketPair) : ℚ :=
  1 - |pair.kalshi.final_price_yes.getD (1/2) - pair.polymarket.final_price_yes.getD (1/2)|

/-- Lines 95-98: 1 when some canonical source name occurs as a substring
of both sides' lowercased `source` strings, else 0. -/
def sourcesMatchOf (pair : MarketPair) : ℚ :=
  let k_source := pair.kalshi.source.map Char.toLower
  let p_source := pair.polymarket.source.map Char.toLower
  let common := [String.toList "ap", String.toList "fox", String.toList "nbc",
                 String.toList "official", String.toList "associated press"]
  if common.any (fun s => hasSubstr s k_source && hasSubstr s p_source) then 1 else 0

/-- Line 111: `len(kalshi['title'].split())` (the raw, un-lowercased title). -/
def avgWordCountOf (pair : MarketPair) : ℚ := ((splitWS pair.kalshi.title).length : ℚ)

/-- Function `extract_features` (lines 67-112).  The `Option` bind chain mirrors
the order in which the Python divisions can raise `ZeroDivisionError`.
Decimal constants are written as exact fractions so that the kernel can
evaluate them: `75/2 = 37.5`, `50 = 50.0`, `82 = 82.0`. -/
def extract_features (pair : MarketPair) : Option FeatureVector := do
  let kw ← keywordOverlapOf pair
  let lr ← lengthRatioOf pair
  let vr ← volumeRatioOf pair
  pure ⟨75/2, 50, kw, 1, 1, sourcesMatchOf pair, 82, vr,
        priceCorrelationOf pair, lr, avgWordCountOf pair⟩

/-- Function `prepare_training_data` (lines 115-128): stack normalized rows and
labels (1 when `resolution_alignment.matched`). -/
def prepare_training_data (pairs : List MarketPair) : Option (List (List ℚ) × List ℚ) := do
  let fvs ← pairs.mapM extract_features
  pure (fvs.map FeatureVector.to_array,
        pairs.map (fun p => if p.matched then (1 : ℚ) else 0))

/-- Validity of one side, as the claims assume: a present volume is
non-negative and a present final price lies in the unit interval. -/
def validSide (s : MarketSide) : Bool :=
  (Option.all (fun v => decide (0 ≤ v)) s.volume_usd) &&
  (Option.all (fun p => decide (0 ≤ p) && decide (p ≤ 1)) s.final_price_yes)

/-- Validity of a market pair: both sides valid. -/
def validPair (pair : MarketPair) : Bool :=
  validSide pair.kalshi && validSide pair.polymarket

/-- One clipped noisy entry: `np.clip(x + noise, 0, 1)` element-wise. -/
def clip01 (q : ℚ) : ℚ := min 1 (max 0 q)

/-- One noisy copy of the matrix `X` (lines 140-141): element-wise add
the noise matrix, then clip every entry to the interval from 0 to 1. -/
def noisyCopy (X : List (List ℚ)) (noiseMat : List (List ℚ)) : List (List ℚ) :=
  X.zipWith (fun row nrow => row.zipWith (fun a b => clip01 (a + b)) nrow) noiseMat

/-- Function `augment_training_data` (lines 131-145).  `noise i` is the noise
matrix drawn by `np.random.normal(0, 0.05, X.shape)` on loop iteration
`i`; the statistical distribution plays no role in the claims, so the
draws are passed in explicitly. -/
def augment_training_data (X : List (List ℚ)) (y : List ℚ) (factor : ℕ)
    (noise : ℕ → List (List ℚ)) : List (List ℚ) × List ℚ :=
  let copies := (List.range (factor - 1)).map (fun i => noisyCopy X (noise i))
  (X ++ copies.flatten, y ++ ((List.range (factor - 1)).map (fun _ => y)).flatten)

/-- Function `estimate_weights_simple` (lines 159-183): the calibration-fallback
weights, a constant function of its arguments.  Decimal constants are
written as exact fractions over 100 (`12/100 = 0.12` and so on); the
intercept is `-3/10 = -0.3`. -/
def estimate_weights_simple (_X : List (List ℚ)) (_y : List ℚ) : List ℚ × ℚ :=
  ([12/100, 8/100, 25/100, 15/100, 10/100, 12/100, 8/100, 3/100, 3/100, 2/100, 2/100],
   -3/10)

/-- Function `train_logistic_weights` (lines 148-156).  The sklearn branch fits
an external `LogisticRegression`; its learned coefficients and intercept
are parameters (`sk_coef`, `sk_intercept`) since sklearn is outside the
embedded program. -/
def train_logistic_weights (sklearn_available : Bool) (sk_coef : List ℚ) (sk_intercept : ℚ)
    (X : List (List ℚ)) (y : List ℚ) : List ℚ × ℚ :=
  if sklearn_available then (sk_coef, sk_intercept)
  else estimate_weights_simple X y

/-- Result of `train_random_forest`: the returned dict has key
`feature_importances` always, and `accuracy` only on the sklearn path. -/
structure RFResult where
  feature_importances : List ℚ
  accuracy : Option ℚ
deriving DecidableEq

/-- Function `train_random_forest` (lines 186-198).  On the sklearn path the
importances and cross-validated accuracy come from the external
`RandomForestClassifier`, so they are parameters. -/
def train_random_forest (sklearn_available : Bool) (sk_importances : List ℚ) (sk_accuracy : ℚ)
    (X : List (List ℚ)) (y : List ℚ) : RFResult :=
  if sklearn_available then ⟨sk_importances, some sk_accuracy⟩
  else ⟨(estimate_weights_simple X y).1, none⟩

/-- Confusion-matrix counts (line 225), as natural numbers. -/
structure ConfusionMatrix where
  tp : ℕ
  fp : ℕ
  fn : ℕ
  tn : ℕ
deriving DecidableEq

/-- The metrics dict returned by `evaluate_model` (lines 220-226). -/
structure Metrics where
  accuracy : ℚ
  precision : ℚ
  «recall» : ℚ
  f1_score : ℚ
  confusion_matrix : ConfusionMatrix
deriving DecidableEq

/-- Row score `row · weights + intercept` (line 207). -/
def rowScore (weights : List ℚ) (intercept : ℚ) (row : List ℚ) : ℚ :=
  (row.zipWith (fun a b => a * b) weights).sum + intercept

/-- Line 208: `(sigmoid(scores) >= 0.5).astype(int)` for one score.
`sigmoid(np.clip(s, -500, 500)) >= 0.5` holds iff `0 ≤ s` (lemma
`sigmoid_clip_ge_half_iff` below), so the prediction is the decidable
sign test. -/
def predictOf (s : ℚ) : ℚ := if 0 ≤ s then 1 else 0

/-- Lines 211-214: the four confusion counts over the prediction/label
pairs, using the source's literal comparisons with 1 and 0. -/
def confusionOf (predictions y : List ℚ) : ConfusionMatrix :=
  let ps := predictions.zip y
  ⟨ps.countP (fun t => decide (t.1 = 1) && decide (t.2 = 1)),
   ps.countP (fun t => decide (t.1 = 1) && decide (t.2 = 0)),
   ps.countP (fun t => decide (t.1 = 0) && decide (t.2 = 1)),
   ps.countP (fun t => decide (t.1 = 0) && decide (t.2 = 0))⟩

/-- Function `evaluate_model` (lines 201-226).  `accuracy` divides by `len(y)`
(`(predictions == y).mean()` over arrays of equal shape); on an empty
input numpy's mean is NaN, while rational division by zero yields 0 —
no claim touches the accuracy of an empty evaluation. -/
def evaluate_model (X : List (List ℚ)) (y : List ℚ) (weights : List ℚ) (intercept : ℚ) : Metrics :=
  let predictions := X.map (fun row => predictOf (rowScore weights intercept row))
  let cm := confusionOf predictions y
  let accuracy := (((predictions.zip y).countP (fun t => decide (t.1 = t.2)) : ℚ) / (y.length : ℚ)) * 100
  let precision := if cm.tp + cm.fp > 0 then (cm.tp : ℚ) / ((cm.tp : ℚ) + (cm.fp : ℚ)) * 100 else 0
  let «recall» := if cm.tp + cm.fn > 0 then (cm.tp : ℚ) / ((cm.tp : ℚ) + (cm.fn : ℚ)) * 100 else 0
  let f1 := if precision + «recall» > 0 then 2 * precision * «recall» / (precision + «recall») else 0
  ⟨accuracy, precision, «recall», f1, cm⟩

/-- The `feature_names` list of `main` (lines 261-265). -/
def featureNames : List PyStr :=
  [String.toList "title_similarity", String.toList "description_similarity",
   String.toList "keyword_overlap", String.toList "category_match",
   String.toList "timing_match", String.toList "sources_match",
   String.toList "alignment_score", String.toList "volume_ratio",
   String.toList "price_correlation", String.toList "length_ratio",
   String.toList "avg_word_count"]

/-- The JSON artifact assembled by `main` (lines 292-308). -/
structure ModelArtifact where
  matching_weights : List ℚ
  matching_intercept : ℚ
  metrics : Metrics
  resolution_feature_importances : List ℚ
  resolution_intercept : ℚ
  feature_names : List PyStr
  n_samples : ℕ
  n_augmented : ℕ
  sklearn_available : Bool
deriving DecidableEq

/-- The data-dependent part of `main` (lines 246-308): prepare, augment
with factor 20, train the matching weights, evaluate them on the
original data, train the resolution importances, and assemble the
artifact.  External sklearn outputs and the noise draws are parameters;
`none` models a run aborted by a failed feature extraction.  The
hardcoded resolution-model intercept `-0.2` of line 300 is written as
the exact fraction `-1/5`. -/
def run_pipeline (sklearn_available : Bool) (sk_coef : List ℚ) (sk_intercept : ℚ)
    (sk_importances : List ℚ) (sk_accuracy : ℚ) (noise : ℕ → List (List ℚ))
    (pairs : List MarketPair) : Option ModelArtifact := do
  let Xy ← prepare_training_data pairs
  let aug := augment_training_data Xy.1 Xy.2 20 noise
  let tl := train_logistic_weights sklearn_available sk_coef sk_intercept aug.1 aug.2
  let ms := evaluate_model Xy.1 Xy.2 tl.1 tl.2
  let rf := train_random_forest sklearn_available sk_importances sk_accuracy aug.1 aug.2
  pure ⟨tl.1, tl.2, ms, rf.feature_importances, -1/5, featureNames, pairs.length, aug.2.length,
        sklearn_available⟩

/-- Justification of the prediction embedding: the numerically clamped
sigmoid of line 204-208 is at least 0.5 exactly when the raw score is
non-negative, so `predictOf` captures `(sigmoid(scores) >= 0.5)`. -/
theorem sigmoid_clip_ge_half_iff (s : ℝ) :
    1/2 ≤ 1 / (1 + Real.exp (-(max (-500) (min s 500)))) ↔ 0 ≤ s := by
  have hc : (0 ≤ max (-500 : ℝ) (min s 500)) ↔ 0 ≤ s := by
    constructor
    · intro h
      rcases le_max_iff.mp h with h1 | h1
      · norm_num at h1
      · exact (le_min_iff.mp h1).1
    · intro h
      exact le_max_of_le_right (le_min h (by norm_num))
  have hden : 0 < 1 + Real.exp (-(max (-500 : ℝ) (min s 500))) := by
    have := Real.exp_pos (-(max (-500 : ℝ) (min s 500)))
    linarith
  rw [div_le_div_iff₀ (by norm_num : (0:ℝ) < 2) hden, one_mul, one_mul,
    show (2:ℝ) = 1 + 1 by norm_num, add_le_add_iff_left, ← Real.exp_zero,
    Real.exp_le_exp, neg_nonpos]
  exact hc

/-- Length of a side's lowercased concatenated text: the joining space
contributes 1, so the length is one more than the two field lengths. -/
theorem sideText_length (s : MarketSide) :
    (sideText s).length = s.title.length + 1 + s.description.length := by
  simp [sideText]
  omega

/-- A present volume of a valid side is non-negative, hence so is the
defaulted volume. -/
theorem getD_nonneg_of_all {o : Option ℚ}
    (h : Option.all (fun v => decide (0 ≤ v)) o = true) : 0 ≤ o.getD 1 := by
  cases o with
  | none => norm_num
  | some v => simpa using h

/-- A present price of a valid side lies in the unit interval, hence so
does the defaulted price. -/
theorem getD_unit_of_all {o : Option ℚ}
    (h : Option.all (fun p => decide (0 ≤ p) && decide (p ≤ 1)) o = true) :
    0 ≤ o.getD (1/2) ∧ o.getD (1/2) ≤ 1 := by
  cases o with
  | none => norm_num
  | some v => simpa using h

/-- When the keyword-overlap division succeeds its value is in [0,100]. -/
theorem keywordOverlapOf_bounds {pair : MarketPair} {kw : ℚ}
    (h : keywordOverlapOf pair = some kw) : 0 ≤ kw ∧ kw ≤ 100 := by
  by_cases hm : max (sideWords pair.kalshi).length (sideWords pair.polymarket).length = 0
  · simp [keywordOverlapOf, hm] at h
  · simp only [keywordOverlapOf, if_neg hm, Option.some.injEq] at h
    subst h
    have hfil : (((sideWords pair.kalshi).filter
        (fun w => decide (w ∈ sideWords pair.polymarket))).length : ℚ) ≤
        ((max (sideWords pair.kalshi).length (sideWords pair.polymarket).length : ℕ) : ℚ) := by
      exact_mod_cast le_trans (List.length_filter_le _ _) (le_max_left _ _)
    have hmpos : (0:ℚ) < ((max (sideWords pair.kalshi).length (sideWords pair.polymarket).length : ℕ) : ℚ) := by
      exact_mod_cast Nat.pos_of_ne_zero hm
    constructor
    · positivity
    · have h1 := div_le_one_of_le₀ hfil hmpos.le
      have h2 := mul_le_mul_of_nonneg_right h1 (by norm_num : (0:ℚ) ≤ 100)
      simpa using h2

/-- The length-ratio division always succeeds and its value is in (0,1]:
both concatenated texts contain the joining space, so both lengths are
at least 1. -/
theorem lengthRatioOf_spec (pair : MarketPair) :
    ∃ lr, lengthRatioOf pair = some lr ∧ 0 < lr ∧ lr ≤ 1 := by
  have hk : 1 ≤ (sideText pair.kalshi).length := by
    rw [sideText_length]; omega
  have hp : 1 ≤ (sideText pair.polymarket).length := by
    rw [sideText_length]; omega
  have hmax : max (sideText pair.kalshi).length (sideText pair.polymarket).length ≠ 0 := by
    omega
  have hk' : (0:ℚ) < ((sideText pair.kalshi).length : ℚ) := by exact_mod_cast hk
  have hp' : (0:ℚ) < ((sideText pair.polymarket).length : ℚ) := by exact_mod_cast hp
  refine ⟨min ((sideText pair.kalshi).length : ℚ) ((sideText pair.polymarket).length : ℚ) /
      max ((sideText pair.kalshi).length : ℚ) ((sideText pair.polymarket).length : ℚ),
    ?_, ?_, ?_⟩
  · simp only [lengthRatioOf]
    rw [if_neg hmax]
  · exact div_pos (lt_min hk' hp') (lt_of_lt_of_le hk' (le_max_left _ _))
  · exact div_le_one_of_le₀ min_le_max (le_trans hk'.le (le_max_left _ _))

/-- When the volume-ratio division succeeds on a valid pair its value is
in [0,1]. -/
theorem volumeRatioOf_bounds {pair : MarketPair} {vr : ℚ} (hv : validPair pair = true)
    (h : volumeRatioOf pair = some vr) : 0 ≤ vr ∧ vr ≤ 1 := by
  simp only [validPair, validSide, Bool.and_eq_true] at hv
  have hkv : 0 ≤ pair.kalshi.volume_usd.getD 1 := getD_nonneg_of_all hv.1.1
  have hpv : 0 ≤ pair.polymarket.volume_usd.getD 1 := getD_nonneg_of_all hv.2.1
  by_cases hm : max (pair.kalshi.volume_usd.getD 1) (pair.polymarket.volume_usd.getD 1) = 0
  · simp [volumeRatioOf, hm] at h
  · simp only [volumeRatioOf, if_neg hm, Option.some.injEq] at h
    subst h
    have hmaxpos : 0 < max (pair.kalshi.volume_usd.getD 1) (pair.polymarket.volume_usd.getD 1) :=
      lt_of_le_of_ne (le_trans hkv (le_max_left _ _)) (Ne.symm hm)
    constructor
    · exact div_nonneg (le_min hkv hpv) hmaxpos.le
    · exact div_le_one_of_le₀ min_le_max hmaxpos.le

/-- On a valid pair the price correlation is in [0,1]. -/
theorem priceCorrelationOf_bounds {pair : MarketPair} (hv : validPair pair = true) :
    0 ≤ priceCorrelationOf pair ∧ priceCorrelationOf pair ≤ 1 := by
  simp only [validPair, validSide, Bool.and_eq_true] at hv
  obtain ⟨hk0, hk1⟩ := getD_unit_of_all hv.1.2
  obtain ⟨hp0, hp1⟩ := getD_unit_of_all hv.2.2
  unfold priceCorrelationOf
  have habs : |pair.kalshi.final_price_yes.getD (1/2) - pair.polymarket.final_price_yes.getD (1/2)| ≤ 1 :=
    abs_sub_le_iff.mpr ⟨by linarith, by linarith⟩
  have habs0 : 0 ≤ |pair.kalshi.final_price_yes.getD (1/2) - pair.polymarket.final_price_yes.getD (1/2)| :=
    abs_nonneg _
  constructor <;> linarith

/-- The sources-match indicator is 0 or 1. -/
theorem sourcesMatchOf_cases (pair : MarketPair) :
    sourcesMatchOf pair = 0 ∨ sourcesMatchOf pair = 1 := by
  simp only [sourcesMatchOf]
  split
  · exact Or.inr rfl
  · exact Or.inl rfl

/-- The raw word count is a non-negative rational. -/
theorem avgWordCountOf_nonneg (pair : MarketPair) : 0 ≤ avgWordCountOf pair := by
  unfold avgWordCountOf
  positivity

/-- Inversion of a successful feature extraction: the field values of
the produced vector, and success of the three guarded divisions. -/
theorem extract_features_some {pair : MarketPair} {fv : FeatureVector}
    (h : extract_features pair = some fv) :
    ∃ kw lr vr, keywordOverlapOf pair = some kw ∧ lengthRatioOf pair = some lr ∧
      volumeRatioOf pair = some vr ∧
      fv = ⟨75/2, 50, kw, 1, 1, sourcesMatchOf pair, 82, vr, priceCorrelationOf pair, lr,
            avgWordCountOf pair⟩ := by
  simp only [extract_features, bind, Option.bind_eq_some, pure, Option.some.injEq] at h
  obtain ⟨kw, hkw, lr, hlr, vr, hvr, hfv⟩ := h
  exact ⟨kw, lr, vr, hkw, hlr, hvr, hfv.symm⟩

/-- Every prediction of the threshold classifier is 0 or 1. -/
theorem predictOf_cases (s : ℚ) : predictOf s = 0 ∨ predictOf s = 1 := by
  unfold predictOf
  split
  · exact Or.inr rfl
  · exact Or.inl rfl

/-- Splitting a list of 0/1-valued pairs across the four confusion
predicates counts every element exactly once. -/
theorem countP_four_split (l : List (ℚ × ℚ))
    (h : ∀ t ∈ l, (t.1 = 0 ∨ t.1 = 1) ∧ (t.2 = 0 ∨ t.2 = 1)) :
    l.countP (fun t => decide (t.1 = 1) && decide (t.2 = 1)) +
    l.countP (fun t => decide (t.1 = 1) && decide (t.2 = 0)) +
    l.countP (fun t => decide (t.1 = 0) && decide (t.2 = 1)) +
    l.countP (fun t => decide (t.1 = 0) && decide (t.2 = 0)) = l.length := by
  induction l with
  | nil => simp
  | cons a l ih =>
    have ha := h a (List.mem_cons_self a l)
    have hl : ∀ t ∈ l, (t.1 = 0 ∨ t.1 = 1) ∧ (t.2 = 0 ∨ t.2 = 1) :=
      fun t ht => h t (List.mem_cons_of_mem a ht)
    have ih' := ih hl
    rcases ha with ⟨h1 | h1, h2 | h2⟩ <;>
      simp only [List.countP_cons, h1, h2, List.length_cons] <;>
      norm_num <;> omega

/-- The four confusion counts of `confusionOf` partition the label
vector when predictions and labels are 0/1-valued and aligned. -/
theorem confusionOf_total {preds y : List ℚ}
    (hp : ∀ p ∈ preds, p = 0 ∨ p = 1) (hy : ∀ l ∈ y, l = 0 ∨ l = 1)
    (hlen : preds.length = y.length) :
    (confusionOf preds y).tp + (confusionOf preds y).fp +
    (confusionOf preds y).fn + (confusionOf preds y).tn = y.length := by
  have hzip : ∀ t ∈ preds.zip y, (t.1 = 0 ∨ t.1 = 1) ∧ (t.2 = 0 ∨ t.2 = 1) := by
    intro t ht
    rcases t with ⟨p, l⟩
    obtain ⟨h1, h2⟩ := List.of_mem_zip ht
    exact ⟨hp p h1, hy l h2⟩
  have hc := countP_four_split (preds.zip y) hzip
  simp only [confusionOf]
  rw [hc, List.length_zip, hlen, min_self]

/-- C3: `estimate_weights_simple` ignores its inputs and returns the
same fixed 11-component weight vector and intercept `-0.3` on every
invocation, and the weight magnitudes realize the documented ordering
keyword_overlap > category_match > sources_match = title_similarity >
timing_match > description_similarity = alignment_score > volume_ratio
= price_correlation > length_ratio = avg_word_count. -/
theorem C3_fallback_weights_fixed (X X2 : List (List ℚ)) (y y2 : List ℚ) :
    estimate_weights_simple X y = estimate_weights_simple X2 y2 ∧
    estimate_weights_simple X y =
      ([12/100, 8/100, 25/100, 15/100, 10/100, 12/100, 8/100, 3/100, 3/100, 2/100, 2/100],
       -3/10) ∧
    (estimate_weights_simple X y).1.length = 11 ∧
    (estimate_weights_simple X y).1.getD 2 0 > (estimate_weights_simple X y).1.getD 3 0 ∧
    (estimate_weights_simple X y).1.getD 3 0 > (estimate_weights_simple X y).1.getD 5 0 ∧
    (estimate_weights_simple X y).1.getD 5 0 = (estimate_weights_simple X y).1.getD 0 0 ∧
    (estimate_weights_simple X y).1.getD 0 0 > (estimate_weights_simple X y).1.getD 4 0 ∧
    (estimate_weights_simple X y).1.getD 4 0 > (estimate_weights_simple X y).1.getD 1 0 ∧
    (estimate_weights_simple X y).1.getD 1 0 = (estimate_weights_simple X y).1.getD 6 0 ∧
    (estimate_weights_simple X y).1.getD 6 0 > (estimate_weights_simple X y).1.getD 7 0 ∧
    (estimate_weights_simple X y).1.getD 7 0 = (estimate_weights_simple X y).1.getD 8 0 ∧
    (estimate_weights_simple X y).1.getD 8 0 > (estimate_weights_simple X y).1.getD 9 0 ∧
    (estimate_weights_simple X y).1.getD 9 0 = (estimate_weights_simple X y).1.getD 10 0 := by
  refine ⟨rfl, rfl, rfl, ?_⟩
  norm_num [estimate_weights_simple, List.getD]

/-- C7: with the trained-estimator capability unavailable,
`train_random_forest` returns exactly the calibration-fallback weight
vector as its feature importances; it has length 11 and every component
is non-negative. -/
theorem C7_fallback_importances (sk_importances : List ℚ) (sk_accuracy : ℚ)
    (X : List (List ℚ)) (y : List ℚ) :
    (train_random_forest false sk_importances sk_accuracy X y).feature_importances =
      (estimate_weights_simple X y).1 ∧
    (train_random_forest false sk_importances sk_accuracy X y).feature_importances.length = 11 ∧
    ∀ w ∈ (train_random_forest false sk_importances sk_accuracy X y).feature_importances,
      0 ≤ w := by
  refine ⟨rfl, rfl, ?_⟩
  intro w hw
  simp only [train_random_forest, estimate_weights_simple, if_neg Bool.false_ne_true,
    List.mem_cons, List.not_mem_nil, or_false] at hw
  rcases hw with h | h | h | h | h | h | h | h | h | h | h <;> rw [h] <;> norm_num

/-- C5: `evaluate_model` resolves every zero-denominator case locally to
0 — precision is 0 when there are no positive predictions, recall is 0
when there are no positive labels, and F1 is 0 when precision + recall
is 0 — and, being a total function, it returns a metrics record on every
input rather than raising. -/
theorem C5_zero_denominator_guards (X : List (List ℚ)) (y : List ℚ)
    (weights : List ℚ) (intercept : ℚ) :
    ((evaluate_model X y weights intercept).confusion_matrix.tp +
        (evaluate_model X y weights intercept).confusion_matrix.fp = 0 →
      (evaluate_model X y weights intercept).precision = 0) ∧
    ((evaluate_model X y weights intercept).confusion_matrix.tp +
        (evaluate_model X y weights intercept).confusion_matrix.fn = 0 →
      (evaluate_model X y weights intercept).«recall» = 0) ∧
    ((evaluate_model X y weights intercept).precision +
        (evaluate_model X y weights intercept).«recall» = 0 →
      (evaluate_model X y weights intercept).f1_score = 0) := by
  refine ⟨?_, ?_, ?_⟩
  · intro h
    simp only [evaluate_model] at h ⊢
    rw [if_neg (by omega)]
  · intro h
    simp only [evaluate_model] at h ⊢
    rw [if_neg (by omega)]
  · intro h
    simp only [evaluate_model] at h ⊢
    rw [if_neg (by rw [h]; exact lt_irrefl 0)]

/-- Witness for C5 at a concrete degenerate input: one row scoring
negative with label 0 gives no positive predictions and no positive
labels, so precision, recall and F1 all come out 0. -/
theorem C5_zero_denominator_guards_witness :
    (evaluate_model [[1]] [0] [-1] 0).precision = 0 ∧
    (evaluate_model [[1]] [0] [-1] 0).«recall» = 0 ∧
    (evaluate_model [[1]] [0] [-1] 0).f1_score = 0 := by
  obtain ⟨h1, h2, h3⟩ := C5_zero_denominator_guards [[1]] [0] [-1] 0
  have hp := h1 (by norm_num [evaluate_model, confusionOf, predictOf, rowScore])
  have hr := h2 (by norm_num [evaluate_model, confusionOf, predictOf, rowScore])
  exact ⟨hp, hr, h3 (by rw [hp, hr]; norm_num)⟩

/-- C8: the four confusion-matrix counts of `evaluate_model` always sum
to the number of labels, for aligned inputs with 0/1 labels. -/
theorem C8_confusion_partition (X : List (List ℚ)) (y : List ℚ)
    (weights : List ℚ) (intercept : ℚ)
    (hlen : X.length = y.length) (hy : ∀ l ∈ y, l = 0 ∨ l = 1) :
    (evaluate_model X y weights intercept).confusion_matrix.tp +
    (evaluate_model X y weights intercept).confusion_matrix.fp +
    (evaluate_model X y weights intercept).confusion_matrix.fn +
    (evaluate_model X y weights intercept).confusion_matrix.tn = y.length := by
  have hcm : (evaluate_model X y weights intercept).confusion_matrix =
      confusionOf (X.map (fun row => predictOf (rowScore weights intercept row))) y := rfl
  rw [hcm]
  apply confusionOf_total
  · intro p hp
    obtain ⟨row, _, hrow⟩ := List.mem_map.mp hp
    rw [← hrow]
    exact predictOf_cases _
  · exact hy
  · rw [List.length_map, hlen]

/-- Witness for C8 at a concrete input: two rows, labels 1 and 0. -/
theorem C8_confusion_partition_witness :
    (evaluate_model [[1], [1]] [1, 0] [1] 0).confusion_matrix.tp +
    (evaluate_model [[1], [1]] [1, 0] [1] 0).confusion_matrix.fp +
    (evaluate_model [[1], [1]] [1, 0] [1] 0).confusion_matrix.fn +
    (evaluate_model [[1], [1]] [1, 0] [1] 0).confusion_matrix.tn = 2 :=
  C8_confusion_partition [[1], [1]] [1, 0] [1] 0 rfl
    (by
      intro l hl
      simp only [List.mem_cons, List.not_mem_nil, or_false] at hl
      rcases hl with h | h
      · exact Or.inr h
      · exact Or.inl h)

/-- C9: the `length_ratio` computation never divides by zero — each
side's concatenated text includes the joining space, so its length is at
least 1 — and the ratio is defined with a value in (0,1]. -/
theorem C9_length_ratio_defined (pair : MarketPair) :
    1 ≤ (sideText pair.kalshi).length ∧ 1 ≤ (sideText pair.polymarket).length ∧
    ∃ lr, lengthRatioOf pair = some lr ∧ 0 < lr ∧ lr ≤ 1 := by
  refine ⟨?_, ?_, lengthRatioOf_spec pair⟩
  · rw [sideText_length]; omega
  · rw [sideText_length]; omega

/-- C2 (code behaviour at the failing input): on the pair whose four
text fields are all empty, both word sets are empty and the keyword
overlap division raises `ZeroDivisionError` (embedded as `none`), so
`extract_features` fails instead of returning an overlap of 0 as the
specification requires. -/
theorem C2_empty_words_division_error :
    keywordOverlapOf ⟨⟨[], [], none, none, []⟩, ⟨[], [], none, none, []⟩, true⟩ = none ∧
    extract_features ⟨⟨[], [], none, none, []⟩, ⟨[], [], none, none, []⟩, true⟩ = none := by
  exact ⟨rfl, rfl⟩

/-- C1 (counterexample): a valid pair whose kalshi title has 21 words
produces a normalized `avg_word_count` component of 21/20, which lies
outside [0,1]; component index 10 of the normalized array. -/
theorem C1_counterexample :
    validPair ⟨⟨String.toList "a a a a a a a a a a a a a a a a a a a a a", [], none, none, []⟩,
        ⟨String.toList "a", [], none, none, []⟩, true⟩ = true ∧
    (extract_features ⟨⟨String.toList "a a a a a a a a a a a a a a a a a a a a a", [], none, none, []⟩,
        ⟨String.toList "a", [], none, none, []⟩, true⟩).map
      (fun fv => fv.to_array.getD 10 0) = some (21/20) ∧
    ¬ ((21 : ℚ)/20 ≤ 1) := by
  refine ⟨rfl, ?_, by norm_num⟩
  have h : extract_features ⟨⟨String.toList "a a a a a a a a a a a a a a a a a a a a a", [], none, none, []⟩,
      ⟨String.toList "a", [], none, none, []⟩, true⟩ =
      some ⟨75/2, 50, 100, 1, 1, 0, 82, 1, 1, 2/42, 21⟩ := by
    simp +decide [extract_features, keywordOverlapOf, lengthRatioOf, volumeRatioOf,
      priceCorrelationOf, sourcesMatchOf, avgWordCountOf, sideWords, sideText,
      splitWS, splitWSAux, hasSubstr]
    norm_num [min_def, max_def]
  rw [h]
  simp [FeatureVector.to_array, List.getD]

/-- C1 (amended): for every valid pair on which feature extraction
succeeds and whose kalshi title has at most 20 words, every component of
the normalized feature array lies in [0,1]; without the bound on the
title's word count the `avg_word_count` component is exactly the word
count divided by 20 and can exceed 1. -/
theorem C1_normalized_bounds (pair : MarketPair) (fv : FeatureVector)
    (hv : validPair pair = true) (he : extract_features pair = some fv)
    (hwc : (splitWS pair.kalshi.title).length ≤ 20) :
    ∀ q ∈ FeatureVector.to_array fv, 0 ≤ q ∧ q ≤ 1 := by
  obtain ⟨kw, lr, vr, hkw, hlr, hvr, hfv⟩ := extract_features_some he
  subst hfv
  obtain ⟨hkw0, hkw100⟩ := keywordOverlapOf_bounds hkw
  obtain ⟨lr', hlr', hlr0, hlr1⟩ := lengthRatioOf_spec pair
  rw [hlr] at hlr'
  obtain rfl : lr = lr' := Option.some.injEq _ _ ▸ hlr'
  obtain ⟨hvr0, hvr1⟩ := volumeRatioOf_bounds hv hvr
  obtain ⟨hpc0, hpc1⟩ := priceCorrelationOf_bounds hv
  have hsm := sourcesMatchOf_cases pair
  have hwc' : avgWordCountOf pair ≤ 20 := by
    unfold avgWordCountOf
    exact_mod_cast hwc
  have hwc0 := avgWordCountOf_nonneg pair
  intro q hq
  simp only [FeatureVector.to_array, List.mem_cons, List.not_mem_nil, or_false] at hq
  rcases hq with rfl | rfl | rfl | rfl | rfl | rfl | rfl | rfl | rfl | rfl | rfl
  · constructor <;> norm_num
  · constructor <;> norm_num
  · constructor
    · exact div_nonneg hkw0 (by norm_num)
    · rw [div_le_one (by norm_num)]
      linarith
  · constructor <;> norm_num
  · constructor <;> norm_num
  · rcases hsm with h | h <;> rw [h] <;> constructor <;> norm_num
  · constructor <;> norm_num
  · exact ⟨hvr0, hvr1⟩
  · exact ⟨hpc0, hpc1⟩
  · exact ⟨hlr0.le, hlr1⟩
  · constructor
    · exact div_nonneg hwc0 (by norm_num)
    · rw [div_le_one (by norm_num)]
      linarith

/-- Witness for the amended C1 at a concrete valid pair (one-word kalshi
title): the avg_word_count component 1/20 of its normalized array is in
[0,1]. -/
theorem C1_normalized_bounds_witness : 0 ≤ (1 : ℚ)/20 ∧ (1 : ℚ)/20 ≤ 1 :=
  C1_normalized_bounds
    ⟨⟨String.toList "Win", String.toList "race", none, none, String.toList "AP"⟩,
     ⟨String.toList "win", String.toList "race", none, none, String.toList "ap"⟩, true⟩
    ⟨75/2, 50, 100, 1, 1, 1, 82, 1, 1, 1, 1⟩
    rfl
    (by simp +decide [extract_features, keywordOverlapOf, lengthRatioOf, volumeRatioOf,
      priceCorrelationOf, sourcesMatchOf, avgWordCountOf, sideWords, sideText,
      splitWS, splitWSAux, hasSubstr])
    (by decide)
    ((1 : ℚ)/20)
    (by norm_num [FeatureVector.to_array])

/-- Every clipped value lies in [0,1]. -/
theorem clip01_bounds (q : ℚ) : 0 ≤ clip01 q ∧ clip01 q ≤ 1 := by
  unfold clip01
  exact ⟨le_min (by norm_num) (le_max_left 0 q), min_le_left _ _⟩

/-- An element of a `zipWith` is the image of some pair of elements. -/
theorem eq_of_mem_zipWith {α β γ : Type} {f : α → β → γ} {l1 : List α} {l2 : List β} {c : γ}
    (h : c ∈ List.zipWith f l1 l2) : ∃ a b, c = f a b := by
  induction l1 generalizing l2 with
  | nil => simp at h
  | cons a l ih =>
    cases l2 with
    | nil => simp at h
    | cons b l2 =>
      rcases List.mem_cons.mp h with h1 | h1
      · exact ⟨a, b, h1⟩
      · exact ih h1

/-- A noisy copy of `X` has as many rows as `X` when the noise matrix
does (as `np.random.normal(0, 0.05, X.shape)` always does). -/
theorem noisyCopy_length {X N : List (List ℚ)} (h : N.length = X.length) :
    (noisyCopy X N).length = X.length := by
  simp [noisyCopy, List.length_zipWith, h]

/-- Flattening `k` copies of `n` copies of `a` gives `k * n` copies. -/
theorem flatten_replicate_replicate {α : Type} (k n : ℕ) (a : α) :
    (List.replicate k (List.replicate n a)).flatten = List.replicate (k * n) a := by
  induction k with
  | zero => simp
  | succ k ih =>
    rw [List.replicate_succ, List.flatten_cons, ih, Nat.succ_mul, Nat.add_comm,
      List.replicate_add]

/-- Row count of the augmented matrix: `factor` times the original,
given noise matrices of matching shape. -/
theorem augment_fst_length (X : List (List ℚ)) (y : List ℚ) (factor : ℕ)
    (noise : ℕ → List (List ℚ)) (hf : 1 ≤ factor) (hn : ∀ i, (noise i).length = X.length) :
    (augment_training_data X y factor noise).1.length = factor * X.length := by
  simp only [augment_training_data, List.length_append, List.length_flatten, List.map_map]
  have hc : (List.length ∘ fun i => noisyCopy X (noise i)) = fun _ => X.length := by
    funext i
    exact noisyCopy_length (hn i)
  rw [hc, List.map_const', List.length_range, List.sum_replicate, smul_eq_mul]
  obtain ⟨k, rfl⟩ := Nat.exists_eq_add_of_le hf
  rw [Nat.add_sub_cancel_left, Nat.add_mul, Nat.one_mul]

/-- Label count of the augmented labels: `factor` times the original. -/
theorem augment_snd_length (X : List (List ℚ)) (y : List ℚ) (factor : ℕ)
    (noise : ℕ → List (List ℚ)) (hf : 1 ≤ factor) :
    (augment_training_data X y factor noise).2.length = factor * y.length := by
  simp only [augment_training_data, List.length_append, List.length_flatten, List.map_map]
  have hc : (List.length ∘ fun _ : ℕ => y) = fun _ => y.length := rfl
  rw [hc, List.map_const', List.length_range, List.sum_replicate, smul_eq_mul]
  obtain ⟨k, rfl⟩ := Nat.exists_eq_add_of_le hf
  rw [Nat.add_sub_cancel_left, Nat.add_mul, Nat.one_mul]

/-- C4: for every input matrix, labels, and factor at least 1,
`augment_training_data` returns exactly `factor` times the rows and
labels, keeps the original rows and labels unchanged as the leading
block, is the identity at factor 1, and every element of every perturbed
row lies in [0,1] after clipping. -/
theorem C4_augmentation_contract (X : List (List ℚ)) (y : List ℚ) (factor : ℕ)
    (noise : ℕ → List (List ℚ)) (hf : 1 ≤ factor) (hn : ∀ i, (noise i).length = X.length) :
    (augment_training_data X y factor noise).1.length = factor * X.length ∧
    (augment_training_data X y factor noise).2.length = factor * y.length ∧
    (augment_training_data X y factor noise).1.take X.length = X ∧
    (augment_training_data X y factor noise).2.take y.length = y ∧
    (factor = 1 → augment_training_data X y factor noise = (X, y)) ∧
    (∀ row ∈ (augment_training_data X y factor noise).1.drop X.length,
      ∀ q ∈ row, 0 ≤ q ∧ q ≤ 1) := by
  refine ⟨augment_fst_length X y factor noise hf hn, augment_snd_length X y factor noise hf,
    ?_, ?_, ?_, ?_⟩
  · simp only [augment_training_data]
    exact List.take_left X _
  · simp only [augment_training_data]
    exact List.take_left y _
  · intro h1
    subst h1
    simp [augment_training_data]
  · intro row hrow q hq
    simp only [augment_training_data, List.drop_left] at hrow
    obtain ⟨l, hl, hrl⟩ := List.mem_flatten.mp hrow
    obtain ⟨i, _, hli⟩ := List.mem_map.mp hl
    rw [← hli] at hrl
    obtain ⟨a, b, hab⟩ := eq_of_mem_zipWith hrl
    rw [hab] at hq
    obtain ⟨u, v, huv⟩ := eq_of_mem_zipWith hq
    rw [huv]
    exact clip01_bounds _

/-- Witness for C4 at a concrete input: one row, one label, factor 2,
noise pushing the entry above 1 so the copy is clipped. -/
theorem C4_augmentation_contract_witness :
    (augment_training_data [[1/2]] [1] 2 (fun _ => [[1]])).1.length = 2 * [[(1:ℚ)/2]].length :=
  (C4_augmentation_contract [[1/2]] [1] 2 (fun _ => [[1]]) (by omega) (fun _ => rfl)).1

/-- Counting over a constant list: all or nothing. -/
theorem countP_replicate {α : Type} (p : α → Bool) (n : ℕ) (a : α) :
    (List.replicate n a).countP p = if p a then n else 0 := by
  induction n with
  | zero => simp
  | succ n ih =>
    rw [List.replicate_succ, List.countP_cons, ih]
    split <;> omega

/-- On any valid pair whose extraction succeeds, the calibration
constants alone contribute 0.4006 to the fallback score while every
data-dependent term is non-negative, so the score with intercept -0.3
is non-negative (indeed positive). -/
theorem fallback_score_nonneg (pair : MarketPair) (fv : FeatureVector)
    (hv : validPair pair = true) (he : extract_features pair = some fv) :
    0 ≤ rowScore
      [12/100, 8/100, 25/100, 15/100, 10/100, 12/100, 8/100, 3/100, 3/100, 2/100, 2/100]
      (-3/10) (FeatureVector.to_array fv) := by
  obtain ⟨kw, lr, vr, hkw, hlr, hvr, hfv⟩ := extract_features_some he
  subst hfv
  obtain ⟨hkw0, _⟩ := keywordOverlapOf_bounds hkw
  obtain ⟨lr', hlr', hlr0, _⟩ := lengthRatioOf_spec pair
  rw [hlr] at hlr'
  obtain rfl : lr = lr' := Option.some.injEq _ _ ▸ hlr'
  obtain ⟨hvr0, _⟩ := volumeRatioOf_bounds hv hvr
  obtain ⟨hpc0, _⟩ := priceCorrelationOf_bounds hv
  have hsm0 : 0 ≤ sourcesMatchOf pair := by
    rcases sourcesMatchOf_cases pair with h | h <;> simp [h]
  have hawc0 := avgWordCountOf_nonneg pair
  simp only [FeatureVector.to_array, rowScore, List.zipWith_cons_cons, List.zipWith_nil_left,
    List.sum_cons, List.sum_nil]
  nlinarith [hkw0, hvr0, hpc0, hlr0.le, hsm0, hawc0]

/-- Evaluating any weights on five copies of one row scoring
non-negatively, against five positive labels, yields recall 100. -/
theorem evaluate_replicate5_recall (row : List ℚ) (w : List ℚ) (b : ℚ)
    (h : 0 ≤ rowScore w b row) :
    (evaluate_model (List.replicate 5 row) (List.replicate 5 1) w b).«recall» = 100 := by
  have hpred : (List.replicate 5 row).map (fun r => predictOf (rowScore w b r)) =
      List.replicate 5 (1:ℚ) := by
    rw [List.map_replicate, predictOf, if_pos h]
  have hcm : confusionOf (List.replicate 5 (1:ℚ)) (List.replicate 5 1) = ⟨5, 0, 0, 0⟩ := by
    simp only [confusionOf, List.zip_replicate, min_self]
    norm_num [countP_replicate]
  simp only [evaluate_model]
  rw [hpred, hcm]
  norm_num

/-- C6: five identical valid matched pairs produce five identical
feature rows with label 1; augmenting by factor 20 yields exactly 100
rows and 100 labels all equal to 1; and evaluating the
calibration-fallback weights (trained on the augmented data, intercept
-0.3) against the original 5 rows yields recall 100 percent. -/
theorem C6_identical_pairs_scenario (pair : MarketPair) (fv : FeatureVector)
    (noise : ℕ → List (List ℚ)) (hv : validPair pair = true)
    (he : extract_features pair = some fv) (hm : pair.matched = true)
    (hn : ∀ i, (noise i).length = 5) :
    prepare_training_data (List.replicate 5 pair) =
      some (List.replicate 5 (FeatureVector.to_array fv), List.replicate 5 1) ∧
    (augment_training_data (List.replicate 5 (FeatureVector.to_array fv))
      (List.replicate 5 1) 20 noise).1.length = 100 ∧
    (augment_training_data (List.replicate 5 (FeatureVector.to_array fv))
      (List.replicate 5 1) 20 noise).2 = List.replicate 100 1 ∧
    (evaluate_model (List.replicate 5 (FeatureVector.to_array fv)) (List.replicate 5 1)
      (estimate_weights_simple
        (augment_training_data (List.replicate 5 (FeatureVector.to_array fv))
          (List.replicate 5 1) 20 noise).1
        (augment_training_data (List.replicate 5 (FeatureVector.to_array fv))
          (List.replicate 5 1) 20 noise).2).1
      (estimate_weights_simple
        (augment_training_data (List.replicate 5 (FeatureVector.to_array fv))
          (List.replicate 5 1) 20 noise).1
        (augment_training_data (List.replicate 5 (FeatureVector.to_array fv))
          (List.replicate 5 1) 20 noise).2).2).«recall» = 100 := by
  refine ⟨?_, ?_, ?_, ?_⟩
  · rw [show List.replicate 5 pair = [pair, pair, pair, pair, pair] from rfl,
      show List.replicate 5 (FeatureVector.to_array fv) =
        [FeatureVector.to_array fv, FeatureVector.to_array fv, FeatureVector.to_array fv,
         FeatureVector.to_array fv, FeatureVector.to_array fv] from rfl,
      show List.replicate 5 (1:ℚ) = [1, 1, 1, 1, 1] from rfl]
    simp [prepare_training_data, List.mapM, List.mapM.loop, he, hm]
  · have h := augment_fst_length (List.replicate 5 (FeatureVector.to_array fv))
      (List.replicate 5 1) 20 noise (by omega)
      (fun i => by rw [hn i, List.length_replicate])
    rw [List.length_replicate] at h
    omega
  · simp only [augment_training_data, List.map_const', List.length_range,
      flatten_replicate_replicate, ← List.replicate_add]
  · exact evaluate_replicate5_recall (FeatureVector.to_array fv) _ _
      (fallback_score_nonneg pair fv hv he)

/-- Witness for C6 at a concrete valid matched pair: the five copies of
its feature row with all labels 1. -/
theorem C6_identical_pairs_scenario_witness :
    prepare_training_data (List.replicate 5
      (⟨⟨String.toList "Win", String.toList "race", none, none, String.toList "AP"⟩,
        ⟨String.toList "win", String.toList "race", none, none, String.toList "ap"⟩,
        true⟩ : MarketPair)) =
      some (List.replicate 5 (FeatureVector.to_array ⟨75/2, 50, 100, 1, 1, 1, 82, 1, 1, 1, 1⟩),
        List.replicate 5 1) :=
  (C6_identical_pairs_scenario
    ⟨⟨String.toList "Win", String.toList "race", none, none, String.toList "AP"⟩,
     ⟨String.toList "win", String.toList "race", none, none, String.toList "ap"⟩, true⟩
    ⟨75/2, 50, 100, 1, 1, 1, 82, 1, 1, 1, 1⟩
    (fun _ => List.replicate 5 [])
    rfl
    (by simp +decide [extract_features, keywordOverlapOf, lengthRatioOf, volumeRatioOf,
      priceCorrelationOf, sourcesMatchOf, avgWordCountOf, sideWords, sideText,
      splitWS, splitWSAux, hasSubstr])
    rfl
    (fun _ => rfl)).1

/-- C10: any successful run exports a resolution model whose intercept
is the hardcoded constant -0.2 (written -1/5), independent of the input
pairs, the noise draws, the sklearn outputs, and the capability flag. -/
theorem C10_resolution_intercept_constant (sklearn_available : Bool) (sk_coef : List ℚ)
    (sk_intercept : ℚ) (sk_importances : List ℚ) (sk_accuracy : ℚ)
    (noise : ℕ → List (List ℚ)) (pairs : List MarketPair) (art : ModelArtifact)
    (h : run_pipeline sklearn_available sk_coef sk_intercept sk_importances sk_accuracy
      noise pairs = some art) :
    art.resolution_intercept = -1/5 := by
  simp only [run_pipeline, bind, Option.bind_eq_some, pure, Option.some.injEq] at h
  obtain ⟨Xy, _, h⟩ := h
  rw [← h]

/-- Witness for C10: the empty dataset runs successfully (with the
capability flag off and trivial sklearn stand-ins) and its artifact has
resolution intercept -1/5. -/
theorem C10_resolution_intercept_constant_witness :
    (⟨[12/100, 8/100, 25/100, 15/100, 10/100, 12/100, 8/100, 3/100, 3/100, 2/100, 2/100],
      -3/10, ⟨0, 0, 0, 0, ⟨0, 0, 0, 0⟩⟩,
      [12/100, 8/100, 25/100, 15/100, 10/100, 12/100, 8/100, 3/100, 3/100, 2/100, 2/100],
      -1/5, featureNames, 0, 0, false⟩ : ModelArtifact).resolution_intercept = -1/5 :=
  C10_resolution_intercept_constant false [] 0 [] 0 (fun _ => []) []
    ⟨[12/100, 8/100, 25/100, 15/100, 10/100, 12/100, 8/100, 3/100, 3/100, 2/100, 2/100],
      -3/10, ⟨0, 0, 0, 0, ⟨0, 0, 0, 0⟩⟩,
      [12/100, 8/100, 25/100, 15/100, 10/100, 12/100, 8/100, 3/100, 3/100, 2/100, 2/100],
      -1/5, featureNames, 0, 0, false⟩
    (by simp [run_pipeline, prepare_training_data, augment_training_data, noisyCopy,
      train_logistic_weights, estimate_weights_simple, evaluate_model, confusionOf,
      train_random_forest, List.mapM, List.mapM.loop])
